import Mathlib

/-!
Verification of the token pipeline in `src/mains.cpp`: tokenizer (`Lexer`),
eager token-stream materialization (the `do`/`while` loop in `main`), parser
(`Parser`), and serializer (`ASTSerializer`).  Every definition below is a
shallow embedding of the corresponding C++ function; the source string is
modelled as a `List Char` and the member variable `pos` (resp. `index`) as an
explicit `Nat` threaded through the functions.  Diagnostics written to
`std::cerr` are modelled as an explicit `List String` output.
-/

namespace XParser

/-- The `TokenType` enum from the source. -/
inductive TokenType : Type where
  | IDENTIFIER : TokenType
  | KEYWORD : TokenType
  | OPERATOR : TokenType
  | LITERAL : TokenType
  | COMMENT : TokenType
  | WHITESPACE : TokenType
  | UNKNOWN : TokenType
deriving DecidableEq, Repr

/-- The `Token` struct: a type tag and the matched text. -/
structure Token : Type where
  type : TokenType
  value : String
deriving DecidableEq, Repr

/-- ASCII classification matching C `isspace` in the default locale. -/
def isspace (c : Char) : Bool :=
  c == ' ' || c == '\t' || c == '\n' || c == '\x0b' || c == '\x0c' || c == '\r'

/-- ASCII classification matching C `isalpha` in the default locale. -/
def isalpha (c : Char) : Bool :=
  ('A' ≤ c && c ≤ 'Z') || ('a' ≤ c && c ≤ 'z')

/-- ASCII classification matching C `isdigit`. -/
def isdigit (c : Char) : Bool :=
  '0' ≤ c && c ≤ '9'

/-- ASCII classification matching C `isalnum`. -/
def isalnum (c : Char) : Bool :=
  isalpha c || isdigit c

/-- The continuation condition of the `Lexer::lexIdentifier` loop:
`isalnum(code[pos]) || code[pos] == '_'`. -/
def isIdentChar (c : Char) : Bool :=
  isalnum c || c == '_'

/-- Loop body of `Lexer::skipWhitespace`, recursing on the unexamined suffix
`code.drop pos` while carrying the scan position `pos`. -/
def skipWhitespaceAux : List Char → Nat → Nat
  | [], pos => pos
  | c :: rest, pos => if isspace c then skipWhitespaceAux rest (pos + 1) else pos

/-- `Lexer::skipWhitespace`: advance `pos` past leading whitespace. -/
def skipWhitespace (code : List Char) (pos : Nat) : Nat :=
  skipWhitespaceAux (code.drop pos) pos

/-- Loop body of `Lexer::lexIdentifier`: consume the run of
alphanumeric-or-underscore characters, accumulating them in order. -/
def lexIdentifierAux : List Char → Nat → List Char → List Char × Nat
  | [], pos, acc => (acc, pos)
  | c :: rest, pos, acc =>
    if isIdentChar c then lexIdentifierAux rest (pos + 1) (acc ++ [c])
    else (acc, pos)

/-- `Lexer::lexIdentifier`: returns the `IDENTIFIER` token together with the
updated scan position. -/
def lexIdentifier (code : List Char) (pos : Nat) : Token × Nat :=
  let r := lexIdentifierAux (code.drop pos) pos []
  (⟨TokenType.IDENTIFIER, String.mk r.1⟩, r.2)

/-- Loop body of `Lexer::lexLiteral`: consume the run of digits. -/
def lexLiteralAux : List Char → Nat → List Char → List Char × Nat
  | [], pos, acc => (acc, pos)
  | c :: rest, pos, acc =>
    if isdigit c then lexLiteralAux rest (pos + 1) (acc ++ [c])
    else (acc, pos)

/-- `Lexer::lexLiteral`: returns the `LITERAL` token together with the updated
scan position. -/
def lexLiteral (code : List Char) (pos : Nat) : Token × Nat :=
  let r := lexLiteralAux (code.drop pos) pos []
  (⟨TokenType.LITERAL, String.mk r.1⟩, r.2)

/-- `Lexer::getNextToken`: skip whitespace; at end-of-input return the
sentinel `(UNKNOWN, "")`; on a letter or underscore lex an identifier; on a
digit lex a literal; otherwise return `(UNKNOWN, <that single character>)`
without advancing the position (the source has no `++pos` on that path).
The returned `Nat` is the lexer's `pos` after the call. -/
def getNextToken (code : List Char) (pos : Nat) : Token × Nat :=
  if h : skipWhitespace code pos < code.length then
    if isalpha (code[skipWhitespace code pos]) || code[skipWhitespace code pos] == '_' then
      lexIdentifier code (skipWhitespace code pos)
    else if isdigit (code[skipWhitespace code pos]) then
      lexLiteral code (skipWhitespace code pos)
    else
      (⟨TokenType.UNKNOWN, String.mk [code[skipWhitespace code pos]]⟩, skipWhitespace code pos)
  else
    (⟨TokenType.UNKNOWN, ""⟩, skipWhitespace code pos)

/-- The scan position never moves backwards while skipping whitespace. -/
theorem skipWhitespaceAux_le (rem : List Char) (pos : Nat) :
    pos ≤ skipWhitespaceAux rem pos := by
  induction rem generalizing pos with
  | nil => simp [skipWhitespaceAux]
  | cons c rest ih =>
    simp only [skipWhitespaceAux]
    split
    · exact Nat.le_trans (Nat.le_succ pos) (ih (pos + 1))
    · exact Nat.le_refl pos

/-- `skipWhitespace` never moves the scan position backwards. -/
theorem skipWhitespace_le (code : List Char) (pos : Nat) :
    pos ≤ skipWhitespace code pos :=
  skipWhitespaceAux_le (code.drop pos) pos

/-- If the character at the scan position is not whitespace, `skipWhitespace`
leaves the position unchanged. -/
theorem skipWhitespace_eq_of_not_isspace (code : List Char) (pos : Nat)
    (h : pos < code.length) (hc : isspace (code[pos]) = false) :
    skipWhitespace code pos = pos := by
  unfold skipWhitespace
  rw [List.drop_eq_getElem_cons h]
  simp [skipWhitespaceAux, hc]

/-- The identifier loop returns the accumulator followed by the maximal
alphanumeric-or-underscore run of the remaining input, advancing the position
by the length of that run. -/
theorem lexIdentifierAux_eq (rem : List Char) (pos : Nat) (acc : List Char) :
    lexIdentifierAux rem pos acc =
      (acc ++ rem.takeWhile isIdentChar, pos + (rem.takeWhile isIdentChar).length) := by
  induction rem generalizing pos acc with
  | nil => simp [lexIdentifierAux]
  | cons c rest ih =>
    simp only [lexIdentifierAux, List.takeWhile_cons]
    by_cases hc : isIdentChar c = true
    · simp only [hc, if_true, ih]
      simp [Nat.add_comm, Nat.add_assoc, Nat.add_left_comm]
    · simp only [Bool.not_eq_true] at hc
      simp [hc]

/-- The literal loop returns the accumulator followed by the maximal digit run
of the remaining input, advancing the position by its length. -/
theorem lexLiteralAux_eq (rem : List Char) (pos : Nat) (acc : List Char) :
    lexLiteralAux rem pos acc =
      (acc ++ rem.takeWhile isdigit, pos + (rem.takeWhile isdigit).length) := by
  induction rem generalizing pos acc with
  | nil => simp [lexLiteralAux]
  | cons c rest ih =>
    simp only [lexLiteralAux, List.takeWhile_cons]
    by_cases hc : isdigit c = true
    · simp only [hc, if_true, ih]
      simp [Nat.add_comm, Nat.add_assoc, Nat.add_left_comm]
    · simp only [Bool.not_eq_true] at hc
      simp [hc]

/-- `lexIdentifier` in closed form: the token text is the maximal
identifier-character run starting at `pos`. -/
theorem lexIdentifier_eq (code : List Char) (pos : Nat) :
    lexIdentifier code pos =
      (⟨TokenType.IDENTIFIER, String.mk ((code.drop pos).takeWhile isIdentChar)⟩,
        pos + ((code.drop pos).takeWhile isIdentChar).length) := by
  unfold lexIdentifier
  rw [lexIdentifierAux_eq]
  simp

/-- `lexLiteral` in closed form: the token text is the maximal digit run
starting at `pos`. -/
theorem lexLiteral_eq (code : List Char) (pos : Nat) :
    lexLiteral code pos =
      (⟨TokenType.LITERAL, String.mk ((code.drop pos).takeWhile isdigit)⟩,
        pos + ((code.drop pos).takeWhile isdigit).length) := by
  unfold lexLiteral
  rw [lexLiteralAux_eq]
  simp

/-- `getNextToken` when whitespace skipping lands on a letter or underscore
at position `p1`: the call dispatches to `lexIdentifier`. -/
theorem getNextToken_eq_ident (code : List Char) (pos p1 : Nat)
    (hp1 : skipWhitespace code pos = p1) (hlt : p1 < code.length)
    (hid : (isalpha (code[p1]) || code[p1] == '_') = true) :
    getNextToken code pos = lexIdentifier code p1 := by
  subst hp1
  unfold getNextToken
  rw [dif_pos hlt, if_pos hid]

/-- `getNextToken` when whitespace skipping lands on a digit at position
`p1`: the call dispatches to `lexLiteral`. -/
theorem getNextToken_eq_lit (code : List Char) (pos p1 : Nat)
    (hp1 : skipWhitespace code pos = p1) (hlt : p1 < code.length)
    (hnid : (isalpha (code[p1]) || code[p1] == '_') = false)
    (hdig : isdigit (code[p1]) = true) :
    getNextToken code pos = lexLiteral code p1 := by
  subst hp1
  unfold getNextToken
  rw [dif_pos hlt, if_neg (by simp [hnid]), if_pos hdig]

/-- `getNextToken` when whitespace skipping lands on an irregular character
at position `p1`: a single-character `UNKNOWN` token, and the position is NOT
advanced past the character. -/
theorem getNextToken_eq_unrecognized (code : List Char) (pos p1 : Nat)
    (hp1 : skipWhitespace code pos = p1) (hlt : p1 < code.length)
    (hnid : (isalpha (code[p1]) || code[p1] == '_') = false)
    (hndig : isdigit (code[p1]) = false) :
    getNextToken code pos = (⟨TokenType.UNKNOWN, String.mk [code[p1]]⟩, p1) := by
  subst hp1
  unfold getNextToken
  rw [dif_pos hlt, if_neg (by simp [hnid]), if_neg (by simp [hndig])]

/-- `getNextToken` at (or past) end-of-input: the end sentinel. -/
theorem getNextToken_eq_sentinel (code : List Char) (pos : Nat)
    (hge : ¬ skipWhitespace code pos < code.length) :
    getNextToken code pos = (⟨TokenType.UNKNOWN, ""⟩, skipWhitespace code pos) := by
  unfold getNextToken
  rw [dif_neg hge]

/-- Whenever `getNextToken` returns a token other than `UNKNOWN`, the scan
position was inside the input and strictly increased. -/
theorem getNextToken_progress (code : List Char) (pos : Nat)
    (h : (getNextToken code pos).1.type ≠ TokenType.UNKNOWN) :
    pos < code.length ∧ pos < (getNextToken code pos).2 := by
  have hle : pos ≤ skipWhitespace code pos := skipWhitespace_le code pos
  by_cases hlt : skipWhitespace code pos < code.length
  · by_cases hid : (isalpha (code[skipWhitespace code pos]) ||
        code[skipWhitespace code pos] == '_') = true
    · refine ⟨Nat.lt_of_le_of_lt hle hlt, ?_⟩
      rw [getNextToken_eq_ident code pos _ rfl hlt hid, lexIdentifier_eq]
      have hguard : isIdentChar (code[skipWhitespace code pos]) = true := by
        rcases Bool.or_eq_true _ _ |>.mp hid with ha | hu
        · simp [isIdentChar, isalnum, ha]
        · simp [isIdentChar, hu]
      rw [List.drop_eq_getElem_cons hlt]
      simp only [List.takeWhile_cons, hguard, if_true, List.length_cons]
      omega
    · simp only [Bool.not_eq_true] at hid
      by_cases hdig : isdigit (code[skipWhitespace code pos]) = true
      · refine ⟨Nat.lt_of_le_of_lt hle hlt, ?_⟩
        rw [getNextToken_eq_lit code pos _ rfl hlt hid hdig, lexLiteral_eq]
        rw [List.drop_eq_getElem_cons hlt]
        simp only [List.takeWhile_cons, hdig, if_true, List.length_cons]
        omega
      · simp only [Bool.not_eq_true] at hdig
        rw [getNextToken_eq_unrecognized code pos _ rfl hlt hid hdig] at h
        simp at h
  · rw [getNextToken_eq_sentinel code pos hlt] at h
    simp at h

/-- The token-stream materialization loop from `main`:
`do { token = lexer.getNextToken(); tokens.push_back(token); }
 while (token.type != TokenType::UNKNOWN);`.
Terminates because every non-`UNKNOWN` token strictly advances the position. -/
def tokenizeFrom (code : List Char) (pos : Nat) : List Token :=
  if h : (getNextToken code pos).1.type = TokenType.UNKNOWN then
    [(getNextToken code pos).1]
  else
    (getNextToken code pos).1 :: tokenizeFrom code (getNextToken code pos).2
termination_by code.length - pos
decreasing_by
  have hp := getNextToken_progress code pos h
  omega

/-- Unfolding `tokenizeFrom` when the token just produced is `UNKNOWN`: the
loop pushes it and stops. -/
theorem tokenizeFrom_stop (code : List Char) (pos : Nat)
    (h : (getNextToken code pos).1.type = TokenType.UNKNOWN) :
    tokenizeFrom code pos = [(getNextToken code pos).1] := by
  rw [tokenizeFrom]
  simp [h]

/-- Unfolding `tokenizeFrom` when the token just produced is not `UNKNOWN`:
the loop pushes it and continues from the new position. -/
theorem tokenizeFrom_step (code : List Char) (pos : Nat)
    (h : ¬ (getNextToken code pos).1.type = TokenType.UNKNOWN) :
    tokenizeFrom code pos =
      (getNextToken code pos).1 :: tokenizeFrom code (getNextToken code pos).2 := by
  rw [tokenizeFrom]
  simp [h]

/-- The materialized token stream for a source text, as built in `main`. -/
def tokenize (code : List Char) : List Token :=
  tokenizeFrom code 0

/-- The `ASTNode` class: a kind label, a textual value, and ordered children
(`std::vector<std::shared_ptr<ASTNode>>`, an exclusive ownership tree). -/
inductive ASTNode : Type where
  | mk : String → String → List ASTNode → ASTNode

/-- The `type` field of an `ASTNode`. -/
def ASTNode.type : ASTNode → String
  | .mk t _ _ => t

/-- The `value` field of an `ASTNode`. -/
def ASTNode.value : ASTNode → String
  | .mk _ v _ => v

/-- The `children` field of an `ASTNode`. -/
def ASTNode.children : ASTNode → List ASTNode
  | .mk _ _ c => c

/-- `Parser::getCurrentToken`: the token at the cursor, or the sentinel
`(UNKNOWN, "")` when the cursor is at or past the end of the stream. -/
def getCurrentToken (tokens : List Token) (index : Nat) : Token :=
  if h : index < tokens.length then
    tokens[index]
  else
    ⟨TokenType.UNKNOWN, ""⟩

/-- `Parser::parseStatement`: the returned triple is the optional `Statement`
node, the cursor after the call, and the diagnostics printed to `std::cerr`
during the call (in order). -/
def parseStatement (tokens : List Token) (index : Nat) :
    Option ASTNode × Nat × List String :=
  let token := getCurrentToken tokens index
  if token.type = TokenType.IDENTIFIER then
    let statementNode := ASTNode.mk "Statement" token.value []
    if (getCurrentToken tokens (index + 1)).value = ";" then
      (some statementNode, index + 2, [])
    else
      (none, index + 1, ["Expected semicolon after identifier."])
  else
    (none, index, ["Unexpected token: " ++ token.value])

/-- The loop of `Parser::parseProgram`
(`while (index < tokens.size()) { ... }`), with an explicit fuel bound on the
number of iterations: `none` means the loop was still running when the fuel
ran out (the source loop has no other exit), `some` carries the accumulated
children of the `Program` node and the diagnostics emitted so far. -/
def parseProgramLoop (tokens : List Token) (fuel : Nat) (index : Nat)
    (children : List ASTNode) (errs : List String) :
    Option (List ASTNode × List String) :=
  if index < tokens.length then
    match fuel with
    | 0 => none
    | fuel + 1 =>
      let r := parseStatement tokens index
      parseProgramLoop tokens fuel r.2.1 (children ++ r.1.toList) (errs ++ r.2.2)
  else
    some (children, errs)

/-- `Parser::parseProgram` (reached from `Parser::parse`): build the
`Program` node from the loop's accumulated children.  `none` means the loop
had not terminated within `fuel` iterations. -/
def parseProgram (tokens : List Token) (fuel : Nat) :
    Option (ASTNode × List String) :=
  (parseProgramLoop tokens fuel 0 [] []).map
    (fun r => (ASTNode.mk "Program" "" r.1, r.2))

/-- `Parser::parse`: entry point, cursor starts at 0. -/
def parse (tokens : List Token) (fuel : Nat) : Option (ASTNode × List String) :=
  parseProgram tokens fuel

mutual

/-- `ASTSerializer::serializeNode`, modelled with the output stream `oss` as
an explicit string accumulator. -/
def serializeNode : ASTNode → String → String
  | .mk ty v cs, oss =>
    serializeChildren cs
      (oss ++ "\x7b \"type\": \"" ++ ty ++ "\", \"value\": \"" ++ v ++
        "\", \"children\": [") ++ "] \x7d"

/-- The `for` loop of `ASTSerializer::serializeNode` over the children:
`", "` is appended after every child except the last. -/
def serializeChildren : List ASTNode → String → String
  | [], oss => oss
  | [c], oss => serializeNode c oss
  | c :: c2 :: cs, oss => serializeChildren (c2 :: cs) (serializeNode c oss ++ ", ")

end

/-- `ASTSerializer::serialize`: serialize into a fresh output stream. -/
def serialize (node : ASTNode) : String :=
  serializeNode node ""

/-- The materialized stream of `"foo;"`: the identifier, then the
unrecognized semicolon at which materialization stops. -/
theorem tokenize_foo : tokenize "foo;".data =
    [⟨TokenType.IDENTIFIER, "foo"⟩, ⟨TokenType.UNKNOWN, ";"⟩] := by
  have h1 : getNextToken "foo;".data 0 = (⟨TokenType.IDENTIFIER, "foo"⟩, 3) := by decide
  have h2 : getNextToken "foo;".data 3 = (⟨TokenType.UNKNOWN, ";"⟩, 3) := by decide
  rw [tokenize, tokenizeFrom_step _ _ (by simp [h1]), h1]
  rw [tokenizeFrom_stop _ _ (by simp [h2]), h2]

/-- The materialized stream of the empty source: exactly the end sentinel. -/
theorem tokenize_empty : tokenize "".data = [⟨TokenType.UNKNOWN, ""⟩] := by
  have h1 : getNextToken "".data 0 = (⟨TokenType.UNKNOWN, ""⟩, 0) := by decide
  rw [tokenize, tokenizeFrom_stop _ _ (by simp [h1]), h1]

/-- The materialized stream of `"123;"`: the literal, then the unrecognized
semicolon at which materialization stops. -/
theorem tokenize_123 : tokenize "123;".data =
    [⟨TokenType.LITERAL, "123"⟩, ⟨TokenType.UNKNOWN, ";"⟩] := by
  have h1 : getNextToken "123;".data 0 = (⟨TokenType.LITERAL, "123"⟩, 3) := by decide
  have h2 : getNextToken "123;".data 3 = (⟨TokenType.UNKNOWN, ";"⟩, 3) := by decide
  rw [tokenize, tokenizeFrom_step _ _ (by simp [h1]), h1]
  rw [tokenizeFrom_stop _ _ (by simp [h2]), h2]

/-- When `parseStatement` fails without moving the cursor at a position still
inside the stream, the `parseProgram` loop never terminates: it returns
`none` (still running) for every fuel bound. -/
theorem parseProgramLoop_stuck (tokens : List Token) (index : Nat)
    (hlt : index < tokens.length)
    (hfail : (parseStatement tokens index).1 = none)
    (hidx : (parseStatement tokens index).2.1 = index) :
    ∀ fuel children errs, parseProgramLoop tokens fuel index children errs = none := by
  intro fuel
  induction fuel with
  | zero =>
    intro children errs
    unfold parseProgramLoop
    rw [if_pos hlt]
  | succ n ih =>
    intro children errs
    unfold parseProgramLoop
    rw [if_pos hlt]
    simp only [hfail, hidx, Option.toList_none, List.append_nil]
    exact ih _ _

/-- A successful `parseStatement` consumed the identifier and the separator:
the node is a `Statement` leaf, the cursor moved two tokens, no diagnostic. -/
theorem parseStatement_some (tokens : List Token) (index : Nat) (n : ASTNode)
    (h : (parseStatement tokens index).1 = some n) :
    n = ASTNode.mk "Statement" (getCurrentToken tokens index).value [] ∧
      (parseStatement tokens index).2.1 = index + 2 ∧
      (parseStatement tokens index).2.2 = [] := by
  unfold parseStatement at *
  by_cases hid : (getCurrentToken tokens index).type = TokenType.IDENTIFIER
  · simp only [hid, if_true] at h ⊢
    by_cases hsep : (getCurrentToken tokens (index + 1)).value = ";"
    · simp only [hsep, if_true] at h ⊢
      obtain rfl := Option.some_inj.mp h
      refine ⟨?_, ?_, ?_⟩ <;> trivial
    · simp [hsep] at h
  · simp [hid] at h

/-- A `Statement` node appended by the loop is always a two-field leaf. -/
theorem parseProgramLoop_children (tokens : List Token) :
    ∀ (fuel index : Nat) (children : List ASTNode) (errs : List String)
      (out : List ASTNode × List String),
      parseProgramLoop tokens fuel index children errs = some out →
      (∀ c ∈ children, c.type = "Statement" ∧ c.children = []) →
      ∀ c ∈ out.1, c.type = "Statement" ∧ c.children = [] := by
  intro fuel
  induction fuel with
  | zero =>
    intro index children errs out hout hchildren
    unfold parseProgramLoop at hout
    by_cases hlt : index < tokens.length
    · rw [if_pos hlt] at hout
      exact absurd hout (by simp)
    · rw [if_neg hlt] at hout
      obtain rfl := Option.some_inj.mp hout
      exact hchildren
  | succ n ih =>
    intro index children errs out hout hchildren
    unfold parseProgramLoop at hout
    by_cases hlt : index < tokens.length
    · rw [if_pos hlt] at hout
      refine ih _ _ _ _ hout ?_
      intro c hc
      rw [List.mem_append] at hc
      rcases hc with hc | hc
      · exact hchildren c hc
      · cases hr : (parseStatement tokens index).1 with
        | none =>
          rw [hr] at hc
          simp at hc
        | some node =>
          rw [hr] at hc
          simp only [Option.toList_some, List.mem_singleton] at hc
          subst hc
          obtain ⟨rfl, -, -⟩ := parseStatement_some tokens index c hr
          exact ⟨rfl, rfl⟩
    · rw [if_neg hlt] at hout
      obtain rfl := Option.some_inj.mp hout
      exact hchildren

/-- Materialization from any position yields a stream ending in the first
`UNKNOWN` token, with no `UNKNOWN` token before it. -/
theorem tokenizeFrom_shape (code : List Char) :
    ∀ (n pos : Nat), code.length - pos ≤ n →
      ∃ ts t, tokenizeFrom code pos = ts ++ [t] ∧ t.type = TokenType.UNKNOWN ∧
        ∀ u ∈ ts, u.type ≠ TokenType.UNKNOWN := by
  intro n
  induction n with
  | zero =>
    intro pos hpos
    have hge : ¬ skipWhitespace code pos < code.length := by
      have := skipWhitespace_le code pos
      omega
    have hU : (getNextToken code pos).1.type = TokenType.UNKNOWN := by
      rw [getNextToken_eq_sentinel code pos hge]
    refine ⟨[], (getNextToken code pos).1, ?_, hU, by simp⟩
    simpa using tokenizeFrom_stop code pos hU
  | succ n ih =>
    intro pos hpos
    by_cases hU : (getNextToken code pos).1.type = TokenType.UNKNOWN
    · refine ⟨[], (getNextToken code pos).1, ?_, hU, by simp⟩
      simpa using tokenizeFrom_stop code pos hU
    · have hp := getNextToken_progress code pos hU
      obtain ⟨ts, t, heq, htU, hts⟩ := ih (getNextToken code pos).2 (by omega)
      refine ⟨(getNextToken code pos).1 :: ts, t, ?_, htU, ?_⟩
      · rw [tokenizeFrom_step code pos hU, heq]
        simp
      · intro u hu
        rcases List.mem_cons.mp hu with rfl | hu
        · exact hU
        · exact hts u hu

/-- Letters and underscores are never whitespace. -/
theorem isspace_false_of_ident (c : Char) (h : (isalpha c || c == '_') = true) :
    isspace c = false := by
  by_contra hs
  simp only [Bool.not_eq_false] at hs
  simp only [isspace, Bool.or_eq_true, beq_iff_eq] at hs
  rcases hs with ((((rfl | rfl) | rfl) | rfl) | rfl) | rfl <;> exact absurd h (by decide)

/-- `parse` on the stream of the empty source never returns: the sentinel is
not an identifier, so `parseStatement` fails without advancing. -/
theorem parse_stuck_empty (fuel : Nat) :
    parse [(⟨TokenType.UNKNOWN, ""⟩ : Token)] fuel = none := by
  unfold parse parseProgram
  rw [parseProgramLoop_stuck [(⟨TokenType.UNKNOWN, ""⟩ : Token)] 0 (by decide) rfl rfl
    fuel [] []]
  rfl

/-- `parse` on the stream of `"123;"` never returns: the literal is not an
identifier, so `parseStatement` fails without advancing. -/
theorem parse_stuck_123 (fuel : Nat) :
    parse [(⟨TokenType.LITERAL, "123"⟩ : Token), ⟨TokenType.UNKNOWN, ";"⟩] fuel = none := by
  unfold parse parseProgram
  rw [parseProgramLoop_stuck [(⟨TokenType.LITERAL, "123"⟩ : Token), ⟨TokenType.UNKNOWN, ";"⟩]
    0 (by decide) rfl rfl fuel [] []]
  rfl

/-- One iteration of the `parseProgram` loop while the cursor is inside the
stream: attempt a statement, append the node (if any), continue. -/
theorem parseProgramLoop_enter (tokens : List Token) (fuel index : Nat)
    (children : List ASTNode) (errs : List String) (hlt : index < tokens.length) :
    parseProgramLoop tokens (fuel + 1) index children errs =
      parseProgramLoop tokens fuel (parseStatement tokens index).2.1
        (children ++ (parseStatement tokens index).1.toList)
        (errs ++ (parseStatement tokens index).2.2) := by
  rw [parseProgramLoop.eq_def, if_pos hlt]

/-- The `parseProgram` loop exits as soon as the cursor reaches the end of
the stream, whatever fuel remains. -/
theorem parseProgramLoop_done (tokens : List Token) (fuel index : Nat)
    (children : List ASTNode) (errs : List String) (hge : ¬ index < tokens.length) :
    parseProgramLoop tokens fuel index children errs = some (children, errs) := by
  rw [parseProgramLoop.eq_def, if_neg hge]

/-- Induction over the strict ownership tree: to prove a property of every
node it suffices to prove it for a node whose children all satisfy it. -/
theorem ASTNode.recMem (P : ASTNode → Prop)
    (h : ∀ ty v cs, (∀ c ∈ cs, P c) → P (ASTNode.mk ty v cs)) :
    ∀ n, P n
  | ASTNode.mk ty v cs => h ty v cs (fun c hc => ASTNode.recMem P h c)
termination_by n => sizeOf n
decreasing_by
  have := List.sizeOf_lt_of_mem hc
  simp only [ASTNode.mk.sizeOf_spec]
  omega

/-- The child-serialization loop only ever appends to the stream it is
given: its output on `oss` is `oss` followed by its output on the empty
stream, provided each child's serialization does the same. -/
theorem serializeChildren_append :
    ∀ (cs : List ASTNode),
      (∀ c ∈ cs, ∀ oss, serializeNode c oss = oss ++ serializeNode c "") →
      ∀ oss, serializeChildren cs oss = oss ++ serializeChildren cs "" := by
  intro cs
  induction cs with
  | nil =>
    intro _ oss
    simp [serializeChildren]
  | cons c rest ih =>
    intro hcs oss
    cases rest with
    | nil =>
      simp only [serializeChildren]
      exact hcs c (by simp) oss
    | cons c2 rest2 =>
      simp only [serializeChildren]
      rw [ih (fun d hd => hcs d (by simp [hd])) (serializeNode c oss ++ ", "),
        ih (fun d hd => hcs d (by simp [hd])) (serializeNode c "" ++ ", "),
        hcs c (by simp) oss]
      simp [String.append_assoc]

/-- `serializeNode` only ever appends to the stream it is given: its output
is a pure function of the node, concatenated after the incoming stream. -/
theorem serializeNode_append (n : ASTNode) :
    ∀ oss, serializeNode n oss = oss ++ serializeNode n "" := by
  induction n using ASTNode.recMem with
  | _ ty v cs ih =>
    intro oss
    simp only [serializeNode]
    rw [serializeChildren_append cs ih
        (oss ++ "\x7b \"type\": \"" ++ ty ++ "\", \"value\": \"" ++ v ++ "\", \"children\": ["),
      serializeChildren_append cs ih
        ("" ++ "\x7b \"type\": \"" ++ ty ++ "\", \"value\": \"" ++ v ++ "\", \"children\": [")]
    simp [String.append_assoc]

/-- Claim C1, counterexample: on the source `";"` the scan position is 0 and
has not reached end-of-input, yet `getNextToken` emits the single-character
`UNKNOWN` token and leaves the position at 0 — it neither strictly increases
the position nor advances it by one. -/
theorem c1_counterexample :
    0 < (";".data).length ∧
      getNextToken ";".data 0 = (⟨TokenType.UNKNOWN, ";"⟩, 0) ∧
      ¬ 0 < (getNextToken ";".data 0).2 :=
  ⟨by decide, by decide, by decide⟩

/-- Claim C1 (amended): a call to `getNextToken` that emits a token other
than the `UNKNOWN` kind strictly increases the scan position; but when the
character at the whitespace-stabilized position is neither a letter, an
underscore, nor a digit, the tokenizer emits a single-character `Unrecognized`
token and leaves the scan position on that character (it does not advance by
one). -/
theorem c1_scan_position :
    (∀ (code : List Char) (pos : Nat),
        (getNextToken code pos).1.type ≠ TokenType.UNKNOWN →
        pos < (getNextToken code pos).2) ∧
      ∀ (code : List Char) (pos p1 : Nat), skipWhitespace code pos = p1 →
        ∀ h : p1 < code.length,
        (isalpha (code[p1]) || code[p1] == '_') = false →
        isdigit (code[p1]) = false →
        getNextToken code pos = (⟨TokenType.UNKNOWN, String.mk [code[p1]]⟩, p1) :=
  ⟨fun code pos h => (getNextToken_progress code pos h).2,
    fun code pos p1 hp1 h hnid hndig =>
      getNextToken_eq_unrecognized code pos p1 hp1 h hnid hndig⟩

/-- Claim C1, witness: the amended statement evaluated on `"a"` (progress on
an identifier) and on `";"` (irregular character left in place). -/
theorem c1_witness :
    0 < (getNextToken "a".data 0).2 ∧
      getNextToken ";".data 0 = (⟨TokenType.UNKNOWN, ";"⟩, 0) := by
  constructor
  · exact c1_scan_position.1 "a".data 0 (by decide)
  · rw [c1_scan_position.2 ";".data 0 0 (by decide) (by decide) (by decide) (by decide)]
    decide

/-- Claim C2, counterexample: on the empty source, `parse` never returns a
`Program` node — the loop is still running whatever the iteration bound,
because the sentinel is rejected without being consumed. -/
theorem c2_counterexample :
    ¬ ∃ fuel r, parse (tokenize "".data) fuel = some r := by
  intro hex
  obtain ⟨fuel, r, hr⟩ := hex
  rw [tokenize_empty, parse_stuck_empty fuel] at hr
  exact Option.noConfusion hr

/-- Claim C2 (amended): for the empty source the materialized stream is
exactly the end sentinel, but `parse` does not terminate: the sentinel is not
an identifier, so every `Statement` attempt reports an unexpected-token
diagnostic and leaves the cursor unchanged, and the `Program` loop is still
running after any number of iterations. -/
theorem c2_empty_source :
    tokenize "".data = [⟨TokenType.UNKNOWN, ""⟩] ∧
      parseStatement [(⟨TokenType.UNKNOWN, ""⟩ : Token)] 0 =
        (none, 0, ["Unexpected token: "]) ∧
      ∀ fuel, parse (tokenize "".data) fuel = none := by
  refine ⟨tokenize_empty, rfl, ?_⟩
  intro fuel
  rw [tokenize_empty]
  exact parse_stuck_empty fuel

/-- Claim C3, counterexample: on the source `"123;"`, `parse` never returns —
the literal is rejected without being consumed, so the loop runs forever and
no `Program` node (with zero children or otherwise) is produced. -/
theorem c3_counterexample :
    ¬ ∃ fuel r, parse (tokenize "123;".data) fuel = some r := by
  intro hex
  obtain ⟨fuel, r, hr⟩ := hex
  rw [tokenize_123, parse_stuck_123 fuel] at hr
  exact Option.noConfusion hr

/-- Claim C3 (amended): for the source `"123;"` the first materialized token
is the `LITERAL` `"123"`, and the `Statement` attempt reports the
unexpected-token diagnostic for it — but it leaves the cursor unchanged, so
`parse` does not terminate (the loop is still running after any number of
iterations) and never returns a `Program` node. -/
theorem c3_literal_statement :
    tokenize "123;".data = [⟨TokenType.LITERAL, "123"⟩, ⟨TokenType.UNKNOWN, ";"⟩] ∧
      (tokenize "123;".data).head? = some ⟨TokenType.LITERAL, "123"⟩ ∧
      parseStatement (tokenize "123;".data) 0 = (none, 0, ["Unexpected token: 123"]) ∧
      ∀ fuel, parse (tokenize "123;".data) fuel = none := by
  refine ⟨tokenize_123, ?_, ?_, ?_⟩
  · rw [tokenize_123]
    rfl
  · rw [tokenize_123]
    rfl
  · intro fuel
    rw [tokenize_123]
    exact parse_stuck_123 fuel

/-- Claim C4: for the source `"foo;"` the materialized stream is
`[Identifier "foo", Unrecognized ";"]`, and `parse` succeeds (for any
sufficient iteration bound), returning a `Program` node with exactly one
child, a `Statement` node with value `"foo"`, and no diagnostics. -/
theorem c4_foo_scenario :
    tokenize "foo;".data = [⟨TokenType.IDENTIFIER, "foo"⟩, ⟨TokenType.UNKNOWN, ";"⟩] ∧
      ∀ fuel, 1 ≤ fuel →
        parse (tokenize "foo;".data) fuel =
          some (ASTNode.mk "Program" "" [ASTNode.mk "Statement" "foo" []], []) := by
  refine ⟨tokenize_foo, ?_⟩
  intro fuel hf
  obtain ⟨n, rfl⟩ : ∃ n, fuel = n + 1 := ⟨fuel - 1, by omega⟩
  rw [tokenize_foo]
  unfold parse parseProgram
  rw [parseProgramLoop_enter _ _ _ _ _ (by decide)]
  have hps : parseStatement [(⟨TokenType.IDENTIFIER, "foo"⟩ : Token),
      ⟨TokenType.UNKNOWN, ";"⟩] 0 = (some (ASTNode.mk "Statement" "foo" []), 2, []) := rfl
  rw [hps]
  rw [parseProgramLoop_done _ _ _ _ _ (by decide)]
  rfl

/-- Claim C4, witness: the scenario evaluated at iteration bound 1. -/
theorem c4_witness :
    parse (tokenize "foo;".data) 1 =
      some (ASTNode.mk "Program" "" [ASTNode.mk "Statement" "foo" []], []) :=
  c4_foo_scenario.2 1 (by decide)

/-- Claim C5: for every source text the materialized token stream is a finite
non-empty list whose last element has kind `UNKNOWN` and in which no earlier
element has kind `UNKNOWN`: materialization stops at the first `UNKNOWN`
token, whether sentinel or irregular character. -/
theorem c5_stream_shape (code : List Char) :
    ∃ ts t, tokenize code = ts ++ [t] ∧ t.type = TokenType.UNKNOWN ∧
      ∀ u ∈ ts, u.type ≠ TokenType.UNKNOWN :=
  tokenizeFrom_shape code code.length 0 (by omega)

/-- Claim C6: when the scan position holds a letter or underscore, a single
`getNextToken` call emits one `IDENTIFIER` token whose text is the entire
maximal run of letters, digits and underscores starting there, and moves the
position past the whole run (greedy longest match). -/
theorem c6_identifier_run (code : List Char) (pos : Nat) (h : pos < code.length)
    (hid : (isalpha (code[pos]) || code[pos] == '_') = true) :
    getNextToken code pos =
      (⟨TokenType.IDENTIFIER, String.mk ((code.drop pos).takeWhile isIdentChar)⟩,
        pos + ((code.drop pos).takeWhile isIdentChar).length) := by
  have hsw : skipWhitespace code pos = pos :=
    skipWhitespace_eq_of_not_isspace code pos h (isspace_false_of_ident _ hid)
  rw [getNextToken_eq_ident code pos pos hsw h hid, lexIdentifier_eq]

/-- Claim C6, witness: on `"ab1_; x"` at position 0 the emitted token is the
identifier `"ab1_"` and the position lands on the semicolon. -/
theorem c6_witness :
    getNextToken "ab1_; x".data 0 = (⟨TokenType.IDENTIFIER, "ab1_"⟩, 4) := by
  rw [c6_identifier_run "ab1_; x".data 0 (by decide) (by decide)]
  decide

/-- Claim C7: whenever `parse` returns, the root node has kind `"Program"`
and empty value, and every child of the root is a `"Statement"` node with no
children of its own. -/
theorem c7_tree_shape (tokens : List Token) (fuel : Nat) (node : ASTNode)
    (errs : List String) (h : parse tokens fuel = some (node, errs)) :
    node.type = "Program" ∧ node.value = "" ∧
      ∀ c ∈ node.children, c.type = "Statement" ∧ c.children = [] := by
  unfold parse parseProgram at h
  cases hloop : parseProgramLoop tokens fuel 0 [] [] with
  | none =>
    rw [hloop] at h
    exact absurd h (by simp)
  | some out =>
    rw [hloop] at h
    simp only [Option.map] at h
    have h2 := Option.some_inj.mp h
    obtain rfl := (congrArg Prod.fst h2).symm
    refine ⟨rfl, rfl, ?_⟩
    exact parseProgramLoop_children tokens fuel 0 [] [] out hloop (by simp)

/-- Claim C7, witness: the empty token sequence parses (with bound 0) to the
bare `Program` node, which satisfies the shape invariant. -/
theorem c7_witness :
    (ASTNode.mk "Program" "" []).type = "Program" ∧
      (ASTNode.mk "Program" "" []).value = "" ∧
      ∀ c ∈ (ASTNode.mk "Program" "" []).children,
        c.type = "Statement" ∧ c.children = [] :=
  c7_tree_shape [] 0 (ASTNode.mk "Program" "" []) [] rfl

/-- Claim C8: a failed `Statement` attempt yields no node, emits exactly one
diagnostic, and leaves the failing token unconsumed: on a non-identifier
current token the cursor is unchanged, and on an identifier not followed by
the separator only the identifier is consumed, the mismatched token remaining
at the cursor. -/
theorem c8_statement_failure (tokens : List Token) (index : Nat)
    (h : (parseStatement tokens index).1 = none) :
    (parseStatement tokens index).2.2.length = 1 ∧
      ((getCurrentToken tokens index).type ≠ TokenType.IDENTIFIER →
        (parseStatement tokens index).2.1 = index) ∧
      ((getCurrentToken tokens index).type = TokenType.IDENTIFIER →
        (parseStatement tokens index).2.1 = index + 1 ∧
          (getCurrentToken tokens (index + 1)).value ≠ ";") := by
  unfold parseStatement at *
  by_cases hid : (getCurrentToken tokens index).type = TokenType.IDENTIFIER
  · simp only [hid, if_true] at h ⊢
    by_cases hsep : (getCurrentToken tokens (index + 1)).value = ";"
    · simp [hsep] at h
    · simp [hsep, hid]
  · simp [hid]

/-- Claim C8, witness: the failure facts evaluated on the one-token stream
holding the literal `"9"` (a non-identifier) at cursor 0. -/
theorem c8_witness :
    (parseStatement [(⟨TokenType.LITERAL, "9"⟩ : Token)] 0).2.2.length = 1 ∧
      ((getCurrentToken [(⟨TokenType.LITERAL, "9"⟩ : Token)] 0).type ≠
          TokenType.IDENTIFIER →
        (parseStatement [(⟨TokenType.LITERAL, "9"⟩ : Token)] 0).2.1 = 0) ∧
      ((getCurrentToken [(⟨TokenType.LITERAL, "9"⟩ : Token)] 0).type =
          TokenType.IDENTIFIER →
        (parseStatement [(⟨TokenType.LITERAL, "9"⟩ : Token)] 0).2.1 = 0 + 1 ∧
          (getCurrentToken [(⟨TokenType.LITERAL, "9"⟩ : Token)] (0 + 1)).value ≠ ";") :=
  c8_statement_failure [(⟨TokenType.LITERAL, "9"⟩ : Token)] 0 rfl

/-- Claim C9: serialization is a deterministic pure function of the tree —
`serializeNode` only appends a tree-determined string to the incoming stream,
and structurally equal trees serialize to byte-identical text. -/
theorem c9_serializer_pure :
    (∀ (node : ASTNode) (oss : String),
        serializeNode node oss = oss ++ serializeNode node "") ∧
      ∀ t1 t2 : ASTNode, t1 = t2 → serialize t1 = serialize t2 :=
  ⟨fun node oss => serializeNode_append node oss,
    fun _ _ h => by rw [h]⟩

/-- Claim C9, witness: the purity facts evaluated on concrete trees. -/
theorem c9_witness :
    serializeNode (ASTNode.mk "Statement" "foo" []) "x" =
        "x" ++ serializeNode (ASTNode.mk "Statement" "foo" []) "" ∧
      serialize (ASTNode.mk "Program" "" []) = serialize (ASTNode.mk "Program" "" []) :=
  ⟨c9_serializer_pure.1 (ASTNode.mk "Statement" "foo" []) "x",
    c9_serializer_pure.2 (ASTNode.mk "Program" "" []) (ASTNode.mk "Program" "" []) rfl⟩

/-- Claim C10: the parser's current-token lookup is total — at or past the
end of the token sequence it returns the sentinel `(UNKNOWN, "")` instead of
reading out of bounds, and inside the sequence it returns the indexed token. -/
theorem c10_cursor_safe (tokens : List Token) (index : Nat) :
    (tokens.length ≤ index → getCurrentToken tokens index = ⟨TokenType.UNKNOWN, ""⟩) ∧
      ∀ h : index < tokens.length, getCurrentToken tokens index = tokens[index] := by
  constructor
  · intro hge
    unfold getCurrentToken
    rw [dif_neg (by omega)]
  · intro h
    unfold getCurrentToken
    rw [dif_pos h]

/-- Claim C10, witness: lookup past the end of the empty stream returns the
sentinel; in-bounds lookup returns the stored token. -/
theorem c10_witness :
    getCurrentToken [] 5 = (⟨TokenType.UNKNOWN, ""⟩ : Token) ∧
      getCurrentToken [(⟨TokenType.IDENTIFIER, "x"⟩ : Token)] 0 =
        ⟨TokenType.IDENTIFIER, "x"⟩ := by
  constructor
  · exact (c10_cursor_safe [] 5).1 (by decide)
  · rw [(c10_cursor_safe [(⟨TokenType.IDENTIFIER, "x"⟩ : Token)] 0).2 (by decide)]
    rfl

end XParser
